import Mathlib

/-!
Verification development for the `use-iframe` messaging hooks
(`src/index.ts`).  The wire channel carries strings; messages are JSON
values.  We embed the JSON fragment relevant to the code: values are
`null`, booleans, numbers (modelled as integers — the library never
relies on fractional numbers), strings, arrays and objects
(key-ordered association lists, as produced by `JSON.parse`).

`jStringify`/`jParse` model `JSON.stringify`/`JSON.parse` on this
fragment, including the string-escaping rules of `JSON.stringify`
(quote, backslash, the named control escapes and `\u00XX` for the
remaining control characters).  `jParse` is total (it returns `none`
on ill-formed input, mirroring the try/catch discipline of the
source) and is proved to invert `jStringify`.
-/

inductive Json where
  | null : Json
  | bool : Bool → Json
  | num : Int → Json
  | str : String → Json
  | arr : List Json → Json
  | obj : List (String × Json) → Json
deriving Repr

/-- Characters that the scanner of this file builds by code point. -/
def quoteChar : Char := Char.ofNat 34

def backslashChar : Char := Char.ofNat 92

def lbraceChar : Char := Char.ofNat 123

def rbraceChar : Char := Char.ofNat 125

def lbracketChar : Char := '['

def rbracketChar : Char := ']'

def commaChar : Char := ','

def colonChar : Char := ':'

def minusChar : Char := '-'

/-- JSON whitespace (space, tab, line feed, carriage return). -/
def isWsChar (c : Char) : Bool :=
  c.toNat = 32 || c.toNat = 9 || c.toNat = 10 || c.toNat = 13

def skipWs (cs : List Char) : List Char := cs.dropWhile isWsChar

def isDigitChar (c : Char) : Bool := 48 ≤ c.toNat && c.toNat ≤ 57

def digitVal (c : Char) : Nat := c.toNat - 48

def digitChar (n : Nat) : Char := Char.ofNat (48 + n)

/-- Lower-case hex digit, as emitted by `JSON.stringify` in `\u00XX`. -/
def hexDigitChar (n : Nat) : Char :=
  if n < 10 then Char.ofNat (48 + n) else Char.ofNat (87 + n)

def hexVal? (c : Char) : Option Nat :=
  if 48 ≤ c.toNat ∧ c.toNat ≤ 57 then some (c.toNat - 48)
  else if 97 ≤ c.toNat ∧ c.toNat ≤ 102 then some (c.toNat - 87)
  else if 65 ≤ c.toNat ∧ c.toNat ≤ 70 then some (c.toNat - 55)
  else none

/-- Escaping of one string character, as in JSON.stringify. -/
def escapeChar (c : Char) : List Char :=
  if c.toNat = 34 then [backslashChar, quoteChar]
  else if c.toNat = 92 then [backslashChar, backslashChar]
  else if c.toNat = 8 then [backslashChar, 'b']
  else if c.toNat = 9 then [backslashChar, 't']
  else if c.toNat = 10 then [backslashChar, 'n']
  else if c.toNat = 12 then [backslashChar, 'f']
  else if c.toNat = 13 then [backslashChar, 'r']
  else if c.toNat < 32 then
    [backslashChar, 'u', '0', '0', hexDigitChar (c.toNat / 16), hexDigitChar (c.toNat % 16)]
  else [c]

def escChars (cs : List Char) : List Char := cs.flatMap escapeChar

/-- Characters of a JSON string literal (with the surrounding quotes). -/
def strLitChars (s : String) : List Char :=
  quoteChar :: (escChars s.data ++ [quoteChar])

/-- Decimal digits of a natural number, most significant first. -/
def natChars (n : Nat) : List Char :=
  if n < 10 then [digitChar n]
  else natChars (n / 10) ++ [digitChar (n % 10)]
decreasing_by exact Nat.div_lt_self (by omega) (by omega)

/-- Decimal notation of an integer, as printed by `JSON.stringify`. -/
def intChars (i : Int) : List Char :=
  if i < 0 then minusChar :: natChars i.natAbs else natChars i.toNat

mutual

/-- Characters of `JSON.stringify` output for a value. -/
def jChars : Json → List Char
  | Json.null => ['n', 'u', 'l', 'l']
  | Json.bool true => ['t', 'r', 'u', 'e']
  | Json.bool false => ['f', 'a', 'l', 's', 'e']
  | Json.num i => intChars i
  | Json.str s => strLitChars s
  | Json.arr [] => [lbracketChar, rbracketChar]
  | Json.arr (x :: xs) => lbracketChar :: (jChars x ++ sepChars xs)
  | Json.obj [] => [lbraceChar, rbraceChar]
  | Json.obj (p :: ps) => lbraceChar :: (pairChars p ++ memSep ps)

/-- Remaining array items, each preceded by a comma, then the closer. -/
def sepChars : List Json → List Char
  | [] => [rbracketChar]
  | x :: xs => commaChar :: (jChars x ++ sepChars xs)

/-- One `"key":value` member. -/
def pairChars : String × Json → List Char
  | (k, v) => strLitChars k ++ (colonChar :: jChars v)

/-- Remaining object members, each preceded by a comma, then the closer. -/
def memSep : List (String × Json) → List Char
  | [] => [rbraceChar]
  | p :: ps => commaChar :: (pairChars p ++ memSep ps)

end

/-- Model of JSON.stringify on the embedded JSON fragment. -/
def jStringify (j : Json) : String := String.mk (jChars j)

/-- The single-character escapes accepted after a backslash. -/
def unescapeChar? (c : Char) : Option Char :=
  if c = quoteChar then some quoteChar
  else if c = backslashChar then some backslashChar
  else if c = '/' then some '/'
  else if c = 'b' then some (Char.ofNat 8)
  else if c = 'f' then some (Char.ofNat 12)
  else if c = 'n' then some (Char.ofNat 10)
  else if c = 'r' then some (Char.ofNat 13)
  else if c = 't' then some (Char.ofNat 9)
  else none

/-- Body of a string literal after the opening quote: unescape until the
closing quote, returning the decoded characters and the rest of the
input. -/
def parseStringBody : List Char → Option (List Char × List Char)
  | [] => none
  | c :: cs =>
    if c = quoteChar then some ([], cs)
    else if c = backslashChar then
      match cs with
      | [] => none
      | e :: cs2 =>
        if e = 'u' then
          match cs2 with
          | a :: b :: c3 :: d :: cs3 =>
            match hexVal? a, hexVal? b, hexVal? c3, hexVal? d with
            | some ha, some hb, some hc, some hd =>
              match parseStringBody cs3 with
              | some (s, r) =>
                some (Char.ofNat (ha * 4096 + hb * 256 + hc * 16 + hd) :: s, r)
              | none => none
            | _, _, _, _ => none
          | _ => none
        else
          match unescapeChar? e with
          | some c2 =>
            match parseStringBody cs2 with
            | some (s, r) => some (c2 :: s, r)
            | none => none
          | none => none
    else
      match parseStringBody cs with
      | some (s, r) => some (c :: s, r)
      | none => none

/-- Greedy run of decimal digits, folding into an accumulator. -/
def parseDigitsRun (acc : Nat) : List Char → Nat × List Char
  | [] => (acc, [])
  | c :: cs =>
    if isDigitChar c then parseDigitsRun (10 * acc + digitVal c) cs
    else (acc, c :: cs)

/-- At least one decimal digit. -/
def parseDigits (cs : List Char) : Option (Nat × List Char) :=
  match cs with
  | c :: _ => if isDigitChar c then some (parseDigitsRun 0 cs) else none
  | [] => none

mutual

/-- Recursive-descent JSON value parser; `fuel` bounds nesting. -/
def parseValue : Nat → List Char → Option (Json × List Char)
  | 0, _ => none
  | fuel + 1, cs =>
    match skipWs cs with
    | [] => none
    | c :: rest =>
      if isDigitChar c then
        match parseDigits (c :: rest) with
        | some (n, r) => some (Json.num (n : Int), r)
        | none => none
      else if c = minusChar then
        match parseDigits rest with
        | some (n, r) => some (Json.num (-(n : Int)), r)
        | none => none
      else if c = quoteChar then
        match parseStringBody rest with
        | some (s, r) => some (Json.str (String.mk s), r)
        | none => none
      else if c = lbracketChar then
        match skipWs rest with
        | [] => none
        | c2 :: r2 =>
          if c2 = rbracketChar then some (Json.arr [], r2)
          else
            match parseItems fuel (c2 :: r2) with
            | some (xs, r3) => some (Json.arr xs, r3)
            | none => none
      else if c = lbraceChar then
        match skipWs rest with
        | [] => none
        | c2 :: r2 =>
          if c2 = rbraceChar then some (Json.obj [], r2)
          else
            match parseMembers fuel (c2 :: r2) with
            | some (ps, r3) => some (Json.obj ps, r3)
            | none => none
      else if c = 'n' then
        match rest with
        | 'u' :: 'l' :: 'l' :: r => some (Json.null, r)
        | _ => none
      else if c = 't' then
        match rest with
        | 'r' :: 'u' :: 'e' :: r => some (Json.bool true, r)
        | _ => none
      else if c = 'f' then
        match rest with
        | 'a' :: 'l' :: 's' :: 'e' :: r => some (Json.bool false, r)
        | _ => none
      else none

/-- One or more comma-separated array items, then the closing bracket. -/
def parseItems : Nat → List Char → Option (List Json × List Char)
  | 0, _ => none
  | fuel + 1, cs =>
    match parseValue fuel cs with
    | some (v, r) =>
      match skipWs r with
      | [] => none
      | c :: r2 =>
        if c = commaChar then
          match parseItems fuel r2 with
          | some (vs, r3) => some (v :: vs, r3)
          | none => none
        else if c = rbracketChar then some ([v], r2)
        else none
    | none => none

/-- One or more comma-separated object members, then the closing brace. -/
def parseMembers : Nat → List Char → Option (List (String × Json) × List Char)
  | 0, _ => none
  | fuel + 1, cs =>
    match skipWs cs with
    | [] => none
    | c :: r =>
      if c = quoteChar then
        match parseStringBody r with
        | some (kChars, r2) =>
          match skipWs r2 with
          | [] => none
          | c2 :: r3 =>
            if c2 = colonChar then
              match parseValue fuel r3 with
              | some (v, r4) =>
                match skipWs r4 with
                | [] => none
                | c3 :: r5 =>
                  if c3 = commaChar then
                    match parseMembers fuel r5 with
                    | some (ps, r6) => some ((String.mk kChars, v) :: ps, r6)
                    | none => none
                  else if c3 = rbraceChar then some ([(String.mk kChars, v)], r5)
                  else none
              | none => none
            else none
        | none => none
      else none

end

/-- Model of JSON.parse on the embedded fragment: parse one value and require
only whitespace to remain.  Any failure yields `none` (the source wraps
the call in a try/catch). -/
def jParse (s : String) : Option Json :=
  match parseValue (2 * s.data.length + 2) s.data with
  | some (j, rest) => if skipWs rest = [] then some j else none
  | none => none

/-! ### Round-trip: `jParse` inverts `jStringify` -/

theorem string_eta (s : String) : String.mk s.data = s := rfl

theorem skipWs_cons (c : Char) (cs : List Char) (h : isWsChar c = false) :
    skipWs (c :: cs) = c :: cs := by
  simp [skipWs, List.dropWhile_cons, h]

theorem isWsChar_of_digit (c : Char) (h : isDigitChar c = true) : isWsChar c = false := by
  simp only [isDigitChar, Bool.and_eq_true, decide_eq_true_eq] at h
  simp only [isWsChar, Bool.or_eq_false_iff, decide_eq_false_iff_not]
  omega

theorem digitChar_toNat (n : Nat) (h : n < 10) : (digitChar n).toNat = 48 + n := by
  interval_cases n <;> decide

theorem isDigitChar_digitChar (n : Nat) (h : n < 10) : isDigitChar (digitChar n) = true := by
  have := digitChar_toNat n h
  simp only [isDigitChar, Bool.and_eq_true, decide_eq_true_eq]
  omega

theorem digitVal_digitChar (n : Nat) (h : n < 10) : digitVal (digitChar n) = n := by
  simp [digitVal, digitChar_toNat n h]

theorem natChars_ne_nil (n : Nat) : natChars n ≠ [] := by
  unfold natChars
  split <;> simp

theorem natChars_digits (n : Nat) : ∀ c ∈ natChars n, isDigitChar c = true := by
  induction n using Nat.strong_induction_on with
  | _ n ih =>
    unfold natChars
    split
    · next h =>
      intro c hc
      simp only [List.mem_singleton] at hc
      subst hc
      exact isDigitChar_digitChar n h
    · next h =>
      intro c hc
      rcases List.mem_append.mp hc with h1 | h1
      · exact ih (n / 10) (Nat.div_lt_self (by omega) (by omega)) c h1
      · simp only [List.mem_singleton] at h1
        subst h1
        exact isDigitChar_digitChar (n % 10) (Nat.mod_lt _ (by omega))

/-- The input after a digit run must not begin with another digit. -/
def headNotDigit : List Char → Prop
  | [] => True
  | c :: _ => isDigitChar c = false

theorem parseDigitsRun_append (ds : List Char) (hd : ∀ c ∈ ds, isDigitChar c = true)
    (rest : List Char) (hrest : headNotDigit rest) (acc : Nat) :
    parseDigitsRun acc (ds ++ rest) =
      (List.foldl (fun a c => 10 * a + digitVal c) acc ds, rest) := by
  induction ds generalizing acc with
  | nil =>
    cases rest with
    | nil => simp [parseDigitsRun]
    | cons c cs =>
      simp only [headNotDigit] at hrest
      simp [parseDigitsRun, hrest]
  | cons d ds ih =>
    have hdd : isDigitChar d = true := hd d (by simp)
    simp only [List.cons_append, parseDigitsRun, hdd, if_true, List.foldl_cons]
    exact ih (fun c hc => hd c (by simp [hc])) _

theorem foldl_natChars (n : Nat) (acc : Nat) :
    List.foldl (fun a c => 10 * a + digitVal c) acc (natChars n) =
      acc * 10 ^ (natChars n).length + n := by
  induction n using Nat.strong_induction_on generalizing acc with
  | _ n ih =>
    rw [natChars]
    split
    · next h =>
      simp [digitVal_digitChar n h]
      omega
    · next h =>
      rw [List.foldl_append, ih (n / 10) (Nat.div_lt_self (by omega) (by omega)) acc]
      simp only [List.foldl_cons, List.foldl_nil, List.length_append, List.length_singleton]
      rw [digitVal_digitChar (n % 10) (Nat.mod_lt _ (by omega))]
      have hmod : 10 * (n / 10) + n % 10 = n := Nat.div_add_mod n 10
      calc 10 * (acc * 10 ^ (natChars (n / 10)).length + n / 10) + n % 10
          = acc * 10 ^ ((natChars (n / 10)).length + 1) + (10 * (n / 10) + n % 10) := by ring
        _ = acc * 10 ^ ((natChars (n / 10)).length + 1) + n := by rw [hmod]

theorem parseDigits_natChars (n : Nat) (rest : List Char) (hrest : headNotDigit rest) :
    parseDigits (natChars n ++ rest) = some (n, rest) := by
  obtain ⟨c, cs, hcons⟩ : ∃ c cs, natChars n = c :: cs := by
    cases h : natChars n with
    | nil => exact absurd h (natChars_ne_nil n)
    | cons c cs => exact ⟨c, cs, rfl⟩
  have hdig : isDigitChar c = true := by
    have := natChars_digits n c
    rw [hcons] at this
    exact this (by simp)
  rw [hcons]
  simp only [List.cons_append, parseDigits, hdig, if_true]
  have := parseDigitsRun_append (natChars n) (natChars_digits n) rest hrest 0
  rw [hcons] at this
  simp only [List.cons_append] at this
  rw [this, ← hcons, foldl_natChars]
  simp

theorem char_eq_ofNat (c : Char) (m : Nat) (h : c.toNat = m) : c = Char.ofNat m := by
  subst h
  exact (Char.ofNat_toNat c).symm

theorem toNat_ne (c : Char) (m : Nat) (h : ¬ c.toNat = m) (d : Char) (hd : d.toNat = m) :
    c ≠ d := by
  intro he
  subst he
  exact h hd

theorem hexVal?_hexDigitChar (n : Nat) (h : n < 16) : hexVal? (hexDigitChar n) = some n := by
  interval_cases n <;> decide

theorem parseStringBody_escape_step (e c2 : Char) (tail : List Char) (s r : List Char)
    (hne : e ≠ 'u') (hun : unescapeChar? e = some c2)
    (htail : parseStringBody tail = some (s, r)) :
    parseStringBody (backslashChar :: e :: tail) = some (c2 :: s, r) := by
  rw [parseStringBody.eq_def]
  simp [show backslashChar ≠ quoteChar by decide, hne, hun, htail]

theorem parseStringBody_plain (c : Char) (tail : List Char) (s r : List Char)
    (h1 : c ≠ quoteChar) (h2 : c ≠ backslashChar)
    (htail : parseStringBody tail = some (s, r)) :
    parseStringBody (c :: tail) = some (c :: s, r) := by
  rw [parseStringBody.eq_def]
  simp [h1, h2, htail]

theorem parseStringBody_unicode (a b c3 d : Char) (va vb vc vd : Nat) (tail s r : List Char)
    (ha : hexVal? a = some va) (hb : hexVal? b = some vb)
    (hc : hexVal? c3 = some vc) (hd : hexVal? d = some vd)
    (htail : parseStringBody tail = some (s, r)) :
    parseStringBody (backslashChar :: 'u' :: a :: b :: c3 :: d :: tail) =
      some (Char.ofNat (va * 4096 + vb * 256 + vc * 16 + vd) :: s, r) := by
  rw [parseStringBody.eq_def]
  simp [show backslashChar ≠ quoteChar by decide, ha, hb, hc, hd, htail]

theorem parseStringBody_escChars (cs rest : List Char) :
    parseStringBody (escChars cs ++ (quoteChar :: rest)) = some (cs, rest) := by
  induction cs with
  | nil =>
    rw [show escChars [] = [] from rfl, List.nil_append, parseStringBody.eq_def]
    simp
  | cons c cs ih =>
    have hesc : escChars (c :: cs) = escapeChar c ++ escChars cs := by
      simp [escChars]
    rw [hesc, List.append_assoc]
    by_cases h34 : c.toNat = 34
    · have hc : c = quoteChar := char_eq_ofNat c 34 h34
      subst hc
      rw [show escapeChar quoteChar = [backslashChar, quoteChar] from by decide]
      exact parseStringBody_escape_step _ _ _ _ _ (by decide) (by decide) ih
    · by_cases h92 : c.toNat = 92
      · have hc : c = backslashChar := char_eq_ofNat c 92 h92
        subst hc
        rw [show escapeChar backslashChar = [backslashChar, backslashChar] from by decide]
        exact parseStringBody_escape_step _ _ _ _ _ (by decide) (by decide) ih
      · by_cases h8 : c.toNat = 8
        · have hc : c = Char.ofNat 8 := char_eq_ofNat c 8 h8
          subst hc
          rw [show escapeChar (Char.ofNat 8) = [backslashChar, 'b'] from by decide]
          exact parseStringBody_escape_step _ _ _ _ _ (by decide) (by decide) ih
        · by_cases h9 : c.toNat = 9
          · have hc : c = Char.ofNat 9 := char_eq_ofNat c 9 h9
            subst hc
            rw [show escapeChar (Char.ofNat 9) = [backslashChar, 't'] from by decide]
            exact parseStringBody_escape_step _ _ _ _ _ (by decide) (by decide) ih
          · by_cases h10 : c.toNat = 10
            · have hc : c = Char.ofNat 10 := char_eq_ofNat c 10 h10
              subst hc
              rw [show escapeChar (Char.ofNat 10) = [backslashChar, 'n'] from by decide]
              exact parseStringBody_escape_step _ _ _ _ _ (by decide) (by decide) ih
            · by_cases h12 : c.toNat = 12
              · have hc : c = Char.ofNat 12 := char_eq_ofNat c 12 h12
                subst hc
                rw [show escapeChar (Char.ofNat 12) = [backslashChar, 'f'] from by decide]
                exact parseStringBody_escape_step _ _ _ _ _ (by decide) (by decide) ih
              · by_cases h13 : c.toNat = 13
                · have hc : c = Char.ofNat 13 := char_eq_ofNat c 13 h13
                  subst hc
                  rw [show escapeChar (Char.ofNat 13) = [backslashChar, 'r'] from by decide]
                  exact parseStringBody_escape_step _ _ _ _ _ (by decide) (by decide) ih
                · by_cases hlt : c.toNat < 32
                  · rw [show escapeChar c =
                        [backslashChar, 'u', '0', '0',
                          hexDigitChar (c.toNat / 16), hexDigitChar (c.toNat % 16)] from by
                      simp [escapeChar, h34, h92, h8, h9, h10, h12, h13, hlt]]
                    have h16a : c.toNat / 16 < 16 := by omega
                    have h16b : c.toNat % 16 < 16 := by omega
                    have := parseStringBody_unicode '0' '0'
                      (hexDigitChar (c.toNat / 16)) (hexDigitChar (c.toNat % 16))
                      0 0 (c.toNat / 16) (c.toNat % 16) _ cs rest
                      (by decide) (by decide)
                      (hexVal?_hexDigitChar _ h16a) (hexVal?_hexDigitChar _ h16b) ih
                    rw [List.cons_append, List.cons_append, List.cons_append,
                      List.cons_append, List.cons_append, List.cons_append, List.nil_append]
                    rw [this]
                    have harith : 0 * 4096 + 0 * 256 + c.toNat / 16 * 16 + c.toNat % 16 =
                        c.toNat := by omega
                    rw [harith, Char.ofNat_toNat]
                  · rw [show escapeChar c = [c] from by
                      simp [escapeChar, h34, h92, h8, h9, h10, h12, h13, hlt]]
                    exact parseStringBody_plain c _ _ _
                      (toNat_ne c 34 h34 quoteChar (by decide))
                      (toNat_ne c 92 h92 backslashChar (by decide)) ih

/-- After a complete value, the input continues with a separator, a
closer, or nothing — exactly the contexts produced by the printer. -/
def delimHead : List Char → Prop
  | [] => True
  | c :: _ => c = commaChar ∨ c = rbracketChar ∨ c = rbraceChar

theorem delimHead_not_digit (rest : List Char) (h : delimHead rest) : headNotDigit rest := by
  cases rest with
  | nil => trivial
  | cons c cs =>
    show isDigitChar c = false
    rcases h with h | h | h <;> subst h <;> decide

theorem delimHead_skipWs (rest : List Char) (h : delimHead rest) : skipWs rest = rest := by
  cases rest with
  | nil => rfl
  | cons c cs =>
    rcases h with h | h | h <;> subst h <;> exact skipWs_cons _ _ (by decide)

theorem natChars_head (n : Nat) :
    ∃ c cs, natChars n = c :: cs ∧ isDigitChar c = true := by
  cases h : natChars n with
  | nil => exact absurd h (natChars_ne_nil n)
  | cons c cs =>
    refine ⟨c, cs, rfl, ?_⟩
    have := natChars_digits n c
    rw [h] at this
    exact this (by simp)

/-- A printed value's first character: not whitespace and not a closer,
so the enclosing array/object parser hands it on to `parseValue`. -/
abbrev okHead (c : Char) : Prop :=
  isWsChar c = false ∧ c ≠ rbracketChar ∧ c ≠ rbraceChar

theorem okHead_of_digit (c : Char) (hd : isDigitChar c = true) : okHead c := by
  refine ⟨isWsChar_of_digit c hd, ?_, ?_⟩ <;>
    exact fun he => absurd (he ▸ hd) (by decide)

theorem jChars_head (j : Json) : ∃ c cs, jChars j = c :: cs ∧ okHead c := by
  cases j with
  | num i =>
    show ∃ c cs, intChars i = c :: cs ∧ _
    unfold intChars
    split
    · exact ⟨minusChar, _, rfl, by decide⟩
    · obtain ⟨c, cs, hc, hd⟩ := natChars_head i.toNat
      exact ⟨c, cs, hc, okHead_of_digit c hd⟩
  | bool b => cases b with
    | true => exact ⟨'t', _, rfl, by decide⟩
    | false => exact ⟨'f', _, rfl, by decide⟩
  | arr xs => cases xs with
    | nil => exact ⟨lbracketChar, _, rfl, by decide⟩
    | cons x xs => exact ⟨lbracketChar, _, rfl, by decide⟩
  | obj ps => cases ps with
    | nil => exact ⟨lbraceChar, _, rfl, by decide⟩
    | cons p ps => exact ⟨lbraceChar, _, rfl, by decide⟩
  | null => exact ⟨'n', _, rfl, by decide⟩
  | str s => exact ⟨quoteChar, _, rfl, by decide⟩

theorem sepChars_delim (xs : List Json) (rest : List Char) :
    delimHead (sepChars xs ++ rest) := by
  cases xs with
  | nil => simp [sepChars, delimHead]
  | cons x xs => simp [sepChars, delimHead]

theorem memSep_delim (ps : List (String × Json)) (rest : List Char) :
    delimHead (memSep ps ++ rest) := by
  cases ps with
  | nil => simp [memSep, delimHead]
  | cons p ps => simp [memSep, delimHead]

mutual

/-- Fuel needed by `parseValue` to read a printed value. -/
def jsize : Json → Nat
  | Json.null => 1
  | Json.bool _ => 1
  | Json.num _ => 1
  | Json.str _ => 1
  | Json.arr xs => 1 + asize xs
  | Json.obj ps => 1 + osize ps

def asize : List Json → Nat
  | [] => 0
  | x :: xs => 1 + jsize x + asize xs

def osize : List (String × Json) → Nat
  | [] => 0
  | p :: ps => 1 + jsize p.2 + osize ps

end

theorem jsize_pos (j : Json) : 1 ≤ jsize j := by
  cases j <;> simp [jsize]

theorem parseValue_null (fuel : Nat) (r : List Char) :
    parseValue (fuel + 1) ('n' :: 'u' :: 'l' :: 'l' :: r) = some (Json.null, r) := rfl

theorem parseValue_true (fuel : Nat) (r : List Char) :
    parseValue (fuel + 1) ('t' :: 'r' :: 'u' :: 'e' :: r) = some (Json.bool true, r) := rfl

theorem parseValue_false (fuel : Nat) (r : List Char) :
    parseValue (fuel + 1) ('f' :: 'a' :: 'l' :: 's' :: 'e' :: r) = some (Json.bool false, r) :=
  rfl

theorem parseValue_quote (fuel : Nat) (tail : List Char) :
    parseValue (fuel + 1) (quoteChar :: tail) =
      (match parseStringBody tail with
       | some (s, r) => some (Json.str (String.mk s), r)
       | none => none) := rfl

theorem parseValue_minus (fuel : Nat) (tail : List Char) :
    parseValue (fuel + 1) (minusChar :: tail) =
      (match parseDigits tail with
       | some (n, r) => some (Json.num (-(n : Int)), r)
       | none => none) := rfl

theorem parseValue_lbracket (fuel : Nat) (tail : List Char) :
    parseValue (fuel + 1) (lbracketChar :: tail) =
      (match skipWs tail with
       | [] => none
       | c2 :: r2 =>
         if c2 = rbracketChar then some (Json.arr [], r2)
         else
           match parseItems fuel (c2 :: r2) with
           | some (xs, r3) => some (Json.arr xs, r3)
           | none => none) := rfl

theorem parseValue_lbrace (fuel : Nat) (tail : List Char) :
    parseValue (fuel + 1) (lbraceChar :: tail) =
      (match skipWs tail with
       | [] => none
       | c2 :: r2 =>
         if c2 = rbraceChar then some (Json.obj [], r2)
         else
           match parseMembers fuel (c2 :: r2) with
           | some (ps, r3) => some (Json.obj ps, r3)
           | none => none) := rfl

theorem parseValue_digitHead (fuel : Nat) (c : Char) (tail : List Char)
    (h : isDigitChar c = true) :
    parseValue (fuel + 1) (c :: tail) =
      (match parseDigits (c :: tail) with
       | some (n, r) => some (Json.num (n : Int), r)
       | none => none) := by
  have hws := isWsChar_of_digit c h
  simp only [parseValue.eq_def]
  rw [skipWs_cons c tail hws]
  simp [h]

theorem parseItems_succ (fuel : Nat) (cs : List Char) :
    parseItems (fuel + 1) cs =
      (match parseValue fuel cs with
       | some (v, r) =>
         (match skipWs r with
          | [] => none
          | c :: r2 =>
            if c = commaChar then
              match parseItems fuel r2 with
              | some (vs, r3) => some (v :: vs, r3)
              | none => none
            else if c = rbracketChar then some ([v], r2)
            else none)
       | none => none) := rfl

theorem parseMembers_succ (fuel : Nat) (cs : List Char) :
    parseMembers (fuel + 1) cs =
      (match skipWs cs with
       | [] => none
       | c :: r =>
         if c = quoteChar then
           (match parseStringBody r with
            | some (kChars, r2) =>
              (match skipWs r2 with
               | [] => none
               | c2 :: r3 =>
                 if c2 = colonChar then
                   (match parseValue fuel r3 with
                    | some (v, r4) =>
                      (match skipWs r4 with
                       | [] => none
                       | c3 :: r5 =>
                         if c3 = commaChar then
                           (match parseMembers fuel r5 with
                            | some (ps, r6) => some ((String.mk kChars, v) :: ps, r6)
                            | none => none)
                         else if c3 = rbraceChar then some ([(String.mk kChars, v)], r5)
                         else none)
                    | none => none)
                 else none)
            | none => none)
         else none) := rfl

theorem parseValue_lbracket_items (fuel : Nat) (c : Char) (tl : List Char)
    (hws : isWsChar c = false) (hnb : c ≠ rbracketChar) :
    parseValue (fuel + 1) (lbracketChar :: (c :: tl)) =
      (match parseItems fuel (c :: tl) with
       | some (xs, r3) => some (Json.arr xs, r3)
       | none => none) := by
  rw [parseValue_lbracket, skipWs_cons c tl hws]
  simp [hnb]

theorem parseValue_lbrace_members (fuel : Nat) (c : Char) (tl : List Char)
    (hws : isWsChar c = false) (hnb : c ≠ rbraceChar) :
    parseValue (fuel + 1) (lbraceChar :: (c :: tl)) =
      (match parseMembers fuel (c :: tl) with
       | some (ps, r3) => some (Json.obj ps, r3)
       | none => none) := by
  rw [parseValue_lbrace, skipWs_cons c tl hws]
  simp [hnb]

theorem parseMembers_quote (fuel : Nat) (tl : List Char) :
    parseMembers (fuel + 1) (quoteChar :: tl) =
      (match parseStringBody tl with
       | some (kChars, r2) =>
         (match skipWs r2 with
          | [] => none
          | c2 :: r3 =>
            if c2 = colonChar then
              (match parseValue fuel r3 with
               | some (v, r4) =>
                 (match skipWs r4 with
                  | [] => none
                  | c3 :: r5 =>
                    if c3 = commaChar then
                      (match parseMembers fuel r5 with
                       | some (ps, r6) => some ((String.mk kChars, v) :: ps, r6)
                       | none => none)
                    else if c3 = rbraceChar then some ([(String.mk kChars, v)], r5)
                    else none)
               | none => none)
            else none)
       | none => none) := rfl

theorem parse_print_aux (fuel : Nat) :
    (∀ j rest, jsize j ≤ fuel → delimHead rest →
       parseValue fuel (jChars j ++ rest) = some (j, rest)) ∧
    (∀ x xs rest, asize (x :: xs) ≤ fuel → delimHead rest →
       parseItems fuel (jChars x ++ (sepChars xs ++ rest)) = some (x :: xs, rest)) ∧
    (∀ k v ps rest, osize ((k, v) :: ps) ≤ fuel → delimHead rest →
       parseMembers fuel (pairChars (k, v) ++ (memSep ps ++ rest)) =
         some ((k, v) :: ps, rest)) := by
  induction fuel with
  | zero =>
    refine ⟨?_, ?_, ?_⟩
    · intro j rest hsz _
      have := jsize_pos j
      omega
    · intro x xs rest hsz _
      simp [asize] at hsz
    · intro k v ps rest hsz _
      simp [osize] at hsz
  | succ fuel ih =>
    obtain ⟨ihV, ihI, ihM⟩ := ih
    refine ⟨?_, ?_, ?_⟩
    · intro j rest hsz hdelim
      cases j with
      | null => exact parseValue_null fuel rest
      | bool b =>
        cases b with
        | true => exact parseValue_true fuel rest
        | false => exact parseValue_false fuel rest
      | num i =>
        by_cases hneg : i < 0
        · have hj : jChars (Json.num i) = minusChar :: natChars i.natAbs := by
            simp [jChars, intChars, hneg]
          rw [hj, List.cons_append, parseValue_minus,
            parseDigits_natChars i.natAbs rest (delimHead_not_digit rest hdelim)]
          show some (Json.num (-((i.natAbs : Nat) : Int)), rest) = some (Json.num i, rest)
          have hcast : -((i.natAbs : Nat) : Int) = i := by omega
          rw [hcast]
        · obtain ⟨c, cs0, hc, hd⟩ := natChars_head i.toNat
          have hj : jChars (Json.num i) = natChars i.toNat := by
            simp [jChars, intChars, hneg]
          rw [hj, hc, List.cons_append, parseValue_digitHead fuel c _ hd,
            ← List.cons_append, ← hc,
            parseDigits_natChars i.toNat rest (delimHead_not_digit rest hdelim)]
          show some (Json.num ((i.toNat : Nat) : Int), rest) = some (Json.num i, rest)
          rw [Int.toNat_of_nonneg (by omega)]
      | str s =>
        have hj : jChars (Json.str s) ++ rest =
            quoteChar :: (escChars s.data ++ (quoteChar :: rest)) := by
          simp [jChars, strLitChars]
        rw [hj, parseValue_quote, parseStringBody_escChars]
      | arr xs =>
        cases xs with
        | nil =>
          have hj : jChars (Json.arr []) ++ rest = lbracketChar :: (rbracketChar :: rest) :=
            rfl
          rw [hj, parseValue_lbracket, skipWs_cons rbracketChar rest (by decide)]
          simp
        | cons x xs =>
          have hj : jChars (Json.arr (x :: xs)) ++ rest =
              lbracketChar :: (jChars x ++ (sepChars xs ++ rest)) := by
            simp [jChars]
          obtain ⟨c, cs0, hc, hws, hnb, _⟩ := jChars_head x
          have hsz2 : asize (x :: xs) ≤ fuel := by
            simp only [jsize] at hsz
            omega
          rw [hj, hc, List.cons_append,
            parseValue_lbracket_items fuel c _ hws hnb,
            ← List.cons_append, ← hc,
            ihI x xs rest hsz2 hdelim]
      | obj ps =>
        cases ps with
        | nil =>
          have hj : jChars (Json.obj []) ++ rest = lbraceChar :: (rbraceChar :: rest) :=
            rfl
          rw [hj, parseValue_lbrace, skipWs_cons rbraceChar rest (by decide)]
          simp
        | cons p ps =>
          obtain ⟨k, v⟩ := p
          have hj : jChars (Json.obj ((k, v) :: ps)) ++ rest =
              lbraceChar :: (pairChars (k, v) ++ (memSep ps ++ rest)) := by
            simp [jChars]
          have hpair : pairChars (k, v) =
              quoteChar :: (escChars k.data ++ (quoteChar :: (colonChar :: jChars v))) := by
            simp [pairChars, strLitChars]
          have hsz2 : osize ((k, v) :: ps) ≤ fuel := by
            simp only [jsize] at hsz
            omega
          rw [hj, hpair, List.cons_append,
            parseValue_lbrace_members fuel quoteChar _ (by decide) (by decide),
            ← List.cons_append, ← hpair,
            ihM k v ps rest hsz2 hdelim]
    · intro x xs rest hsz hdelim
      have h1 : jsize x ≤ fuel := by
        simp only [asize] at hsz
        omega
      rw [parseItems_succ, ihV x (sepChars xs ++ rest) h1 (sepChars_delim xs rest)]
      cases xs with
      | nil =>
        rw [show sepChars ([] : List Json) ++ rest = rbracketChar :: rest from rfl]
        simp [skipWs_cons rbracketChar rest (by decide),
          show rbracketChar ≠ commaChar from by decide]
      | cons y ys =>
        have hsep : sepChars (y :: ys) ++ rest =
            commaChar :: (jChars y ++ (sepChars ys ++ rest)) := by
          simp [sepChars]
        have hsz3 : asize (y :: ys) ≤ fuel := by
          simp only [asize] at hsz ⊢
          omega
        rw [hsep]
        simp [show ∀ X, skipWs (commaChar :: X) = commaChar :: X from
            fun X => skipWs_cons commaChar X (by decide),
          ihI y ys rest hsz3 hdelim]
    · intro k v ps rest hsz hdelim
      have hshape : pairChars (k, v) ++ (memSep ps ++ rest) =
          quoteChar ::
            (escChars k.data ++
              (quoteChar :: (colonChar :: (jChars v ++ (memSep ps ++ rest))))) := by
        simp [pairChars, strLitChars]
      have h1 : jsize v ≤ fuel := by
        simp only [osize] at hsz
        omega
      rw [hshape, parseMembers_quote, parseStringBody_escChars]
      have hskipColon : ∀ X, skipWs (colonChar :: X) = colonChar :: X :=
        fun X => skipWs_cons colonChar X (by decide)
      cases ps with
      | nil =>
        rw [show memSep ([] : List (String × Json)) ++ rest = rbraceChar :: rest from rfl]
        simp [hskipColon, ihV v (rbraceChar :: rest) h1 (by simp [delimHead]),
          skipWs_cons rbraceChar rest (by decide),
          show rbraceChar ≠ commaChar from by decide, string_eta]
      | cons q qs =>
        obtain ⟨k2, v2⟩ := q
        have hsep : memSep ((k2, v2) :: qs) ++ rest =
            commaChar :: (pairChars (k2, v2) ++ (memSep qs ++ rest)) := by
          simp [memSep]
        have hsz3 : osize ((k2, v2) :: qs) ≤ fuel := by
          simp only [osize] at hsz ⊢
          omega
        rw [hsep]
        simp [hskipColon,
          ihV v (commaChar :: (pairChars (k2, v2) ++ (memSep qs ++ rest))) h1
            (by simp [delimHead]),
          show ∀ X, skipWs (commaChar :: X) = commaChar :: X from
            fun X => skipWs_cons commaChar X (by decide),
          ihM k2 v2 qs rest hsz3 hdelim, string_eta]

/-- Structural induction for the nested inductive `Json`. -/
def jsonInduction (P : Json → Prop)
    (h0 : P Json.null) (h1 : ∀ b, P (Json.bool b)) (h2 : ∀ i, P (Json.num i))
    (h3 : ∀ s, P (Json.str s))
    (h4 : ∀ xs, (∀ x ∈ xs, P x) → P (Json.arr xs))
    (h5 : ∀ ps, (∀ p ∈ ps, P p.2) → P (Json.obj ps)) : ∀ j, P j
  | Json.null => h0
  | Json.bool b => h1 b
  | Json.num i => h2 i
  | Json.str s => h3 s
  | Json.arr xs => h4 xs (fun x hx => jsonInduction P h0 h1 h2 h3 h4 h5 x)
  | Json.obj ps => h5 ps (fun p hp => jsonInduction P h0 h1 h2 h3 h4 h5 p.2)
termination_by j => sizeOf j
decreasing_by
  · have := List.sizeOf_lt_of_mem hx
    simp only [Json.arr.sizeOf_spec]
    omega
  · have h := List.sizeOf_lt_of_mem hp
    have h2 : sizeOf p.2 < sizeOf p := by
      obtain ⟨a, b⟩ := p
      simp only [Prod.mk.sizeOf_spec]
      omega
    simp only [Json.obj.sizeOf_spec]
    omega

theorem intChars_ne_nil (i : Int) : intChars i ≠ [] := by
  unfold intChars
  split
  · simp
  · exact natChars_ne_nil _

theorem asize_le_sep (xs : List Json)
    (h : ∀ x ∈ xs, jsize x ≤ 2 * (jChars x).length) :
    asize xs + 1 ≤ 2 * (sepChars xs).length := by
  induction xs with
  | nil => simp [asize, sepChars]
  | cons y ys ih =>
    have h1 := h y (by simp)
    have h2 := ih (fun x hx => h x (by simp [hx]))
    simp only [asize, sepChars, List.length_cons, List.length_append]
    omega

theorem osize_le_mem (ps : List (String × Json))
    (h : ∀ p ∈ ps, jsize p.2 ≤ 2 * (jChars p.2).length) :
    osize ps + 1 ≤ 2 * (memSep ps).length := by
  induction ps with
  | nil => simp [osize, memSep]
  | cons q qs ih =>
    obtain ⟨k, v⟩ := q
    have h1 := h (k, v) (by simp)
    have h2 := ih (fun p hp => h p (by simp [hp]))
    have h3 : 2 ≤ (strLitChars k).length := by
      simp [strLitChars]
    simp only [osize, memSep, pairChars, List.length_cons, List.length_append] at h1 h2 ⊢
    omega

theorem jsize_le (j : Json) : jsize j ≤ 2 * (jChars j).length := by
  induction j using jsonInduction with
  | h0 => simp [jsize, jChars]
  | h1 b => cases b <;> simp [jsize, jChars]
  | h2 i =>
    have h := intChars_ne_nil i
    have : 1 ≤ (intChars i).length := by
      cases hi : intChars i with
      | nil => exact absurd hi h
      | cons c cs => simp
    show jsize (Json.num i) ≤ 2 * (intChars i).length
    simp only [jsize]
    omega
  | h3 s =>
    show jsize (Json.str s) ≤ 2 * (strLitChars s).length
    simp only [jsize, strLitChars, List.length_cons]
    omega
  | h4 xs ih =>
    cases xs with
    | nil => simp [jsize, asize, jChars]
    | cons x xs0 =>
      have haux := asize_le_sep (x :: xs0) ih
      simp only [jsize, jChars, sepChars, List.length_cons, List.length_append] at haux ⊢
      omega
  | h5 ps ih =>
    cases ps with
    | nil => simp [jsize, osize, jChars]
    | cons p ps0 =>
      have haux := osize_le_mem (p :: ps0) ih
      simp only [jsize, jChars, memSep, List.length_cons, List.length_append] at haux ⊢
      omega

/-- Parsing inverts printing on the embedded fragment. -/
theorem jParse_jStringify (j : Json) : jParse (jStringify j) = some j := by
  have hlen : jsize j ≤ 2 * (jChars j).length + 2 := by
    have := jsize_le j
    omega
  have h := (parse_print_aux (2 * (jChars j).length + 2)).1 j [] hlen trivial
  rw [List.append_nil] at h
  show (match parseValue (2 * (jChars j).length + 2) (jChars j) with
        | some (jj, rest) => if skipWs rest = [] then some jj else none
        | none => none) = some j
  rw [h]
  simp [skipWs]

/-! ### The Envelope Codec (`src/index.ts` lines 31-54) -/

/-- The protocol marker key, `const packetId` in the source (line 31). -/
def packetId : String := "__fromUseIframeHook"

/-- Property access `decoded[k]` on a parsed JSON value.  Only objects
have properties; `JSON.parse` keeps the last of duplicate keys, hence
the lookup on the reversed member list.  On non-objects the source's
`k in decoded` check throws and is caught, yielding `undefined`. -/
def jLookup (k : String) : Json → Option Json
  | Json.obj ps => List.lookup k ps.reverse
  | _ => none

/-- Source `encodeMessage` (lines 33-39): wrap the serialized message with the
sender id and the protocol marker, and serialize the wrapper.
`JSON.stringify` omits the `fromId` key when the value is `undefined`. -/
def encodeMessage (message : Json) (fromId : Option String) : String :=
  jStringify (Json.obj
    ((match fromId with
      | some s => [("fromId", Json.str s)]
      | none => []) ++
      [("payload", Json.str (jStringify message)), (packetId, Json.bool true)]))

/-- Field `decoded.fromId` as the `string | undefined` the source returns
(non-string values never compare equal to an iframe id). -/
def fromIdField (decoded : Json) : Option String :=
  match jLookup "fromId" decoded with
  | some (Json.str s) => some s
  | _ => none

/-- Source `decodeMessage` (lines 41-54): parse the wrapper; if that fails, or
the marker key is absent or not exactly `true`, return `undefined`;
otherwise parse the inner payload and pair it with `decoded.fromId`.
All failures are swallowed by the try/catch and yield `none`. -/
def decodeMessage (raw : String) : Option (Json × Option String) :=
  match jParse raw with
  | none => none
  | some decoded =>
    match jLookup packetId decoded with
    | some (Json.bool true) =>
      (match jLookup "payload" decoded with
       | some (Json.str p) =>
         (match jParse p with
          | some message => some (message, fromIdField decoded)
          | none => none)
       | _ => none)
    | _ => none

theorem decode_encode (m : Json) (s : Option String) :
    decodeMessage (encodeMessage m s) = some (m, s) := by
  cases s with
  | none =>
    unfold decodeMessage encodeMessage
    rw [jParse_jStringify]
    simp [jLookup, packetId, fromIdField, List.lookup, jParse_jStringify]
  | some s =>
    unfold decodeMessage encodeMessage
    rw [jParse_jStringify]
    simp [jLookup, packetId, fromIdField, List.lookup, jParse_jStringify]

/-! ### The hook state machine (`useIframe`, `src/index.ts` lines 64-173)

A Link's mutable state is its outbound `queue` and the handshake state
`childId` (`isChildMounted = childId !== undefined`); `role` and the
parent's `iframeId` (the bound frame's DOM id) are fixed per Link.
`isParent` holds when a ref was supplied; `isChild` when no ref was
supplied and the window is framed; otherwise neither branch of the
source's conditionals runs.

The three ways the state evolves are the dispatch callbacks (append to
the queue, lines 86-92), the drain effect (lines 117-130), and the
`message` event listener (lines 132-151); a child's mount effect
(lines 155-166) both dispatches the `mounted` PrivateMessage and sets
its own `childId`.  `hookStep` executes one such step, returning the
new state, the wire strings posted on the channel, and the messages
delivered to the caller's handler.  The parent posts
`encodeMessage(message)`; the child posts
`encodeMessage(message, childId)` (we model the target frame as
present, so every transmitted wire string is observed). -/

inductive Role where
  | parent : Role
  | child : Role
  | neither : Role
deriving Repr, DecidableEq

structure HookState where
  role : Role
  iframeId : Option String
  queue : List Json
  childId : Option String
deriving Repr

/-- JS truthiness of a JSON value (the `if (message)` checks). -/
def truthy : Json → Bool
  | Json.null => false
  | Json.bool b => b
  | Json.num n => if n = 0 then false else true
  | Json.str s => if s = "" then false else true
  | Json.arr _ => true
  | Json.obj _ => true

/-- Source `isPrivateMessage` (lines 56-62): the `__private` property is
exactly `true`.  Non-objects have no such property. -/
def isPrivateMessage (m : Json) : Bool :=
  match jLookup "__private" m with
  | some (Json.bool true) => true
  | _ => false

/-- The PrivateMessage object literal a child sends on mount
(line 162): `{ type: "mounted", id: iframe.id, __private: true }`. -/
def mountedJson (id : String) : Json :=
  Json.obj
    [("type", Json.str "mounted"), ("id", Json.str id), ("__private", Json.bool true)]

/-- Source `handlePrivateMessage` (lines 94-104): on a message whose `type` is
`"mounted"` and whose `id` strictly equals `iframeId`, run
`setChildId(message.id)`.  `message.id === iframeId` holds when both
are the same string or both are `undefined`; in every other case the
state is unchanged. -/
def handlePrivateMessage (st : HookState) (m : Json) : HookState :=
  match jLookup "type" m with
  | some (Json.str t) =>
    if t = "mounted" then
      match jLookup "id" m, st.iframeId with
      | some (Json.str s), some t2 =>
        if s = t2 then { st with childId := some s } else st
      | none, none => { st with childId := none }
      | _, _ => st
    else st
  | _ => st

inductive HookEvent where
  | dispatch : Json → HookEvent
  | drain : HookEvent
  | recv : String → HookEvent
  | mount : String → HookEvent

/-- One scheduler step of the hook: a dispatch call, one run of the
drain effect, delivery of one `message` event, or the child mount
effect.  Returns (state, posted wire strings, handler deliveries). -/
def hookStep (st : HookState) : HookEvent → HookState × List String × List Json
  | HookEvent.dispatch m => ({ st with queue := st.queue ++ [m] }, [], [])
  | HookEvent.drain =>
    match st.role, st.queue with
    | Role.parent, m :: rest =>
      if truthy m && st.childId.isSome then
        ({ st with queue := rest }, [encodeMessage m none], [])
      else (st, [], [])
    | Role.child, m :: rest =>
      if truthy m then ({ st with queue := rest }, [encodeMessage m st.childId], [])
      else (st, [], [])
    | _, _ => (st, [], [])
  | HookEvent.recv raw =>
    match decodeMessage raw with
    | none => (st, [], [])
    | some (m, fromId) =>
      if truthy m then
        if isPrivateMessage m then (handlePrivateMessage st m, [], [])
        else
          match st.role with
          | Role.parent => if st.iframeId = fromId then (st, [], [m]) else (st, [], [])
          | Role.child => (st, [], [m])
          | Role.neither => (st, [], [])
      else (st, [], [])
  | HookEvent.mount id =>
    match st.role with
    | Role.child =>
      ({ st with queue := st.queue ++ [mountedJson id], childId := some id }, [], [])
    | _ => (st, [], [])

def runHook : HookState → List HookEvent → HookState × List String × List Json
  | st, [] => (st, [], [])
  | st, e :: es =>
    let r1 := hookStep st e
    let r2 := runHook r1.1 es
    (r2.1, r1.2.1 ++ r2.2.1, r1.2.2 ++ r2.2.2)

def runState (st : HookState) (es : List HookEvent) : HookState := (runHook st es).1

def runPosted (st : HookState) (es : List HookEvent) : List String := (runHook st es).2.1

def runDelivered (st : HookState) (es : List HookEvent) : List Json := (runHook st es).2.2

/-- Application messages submitted (dispatched) during a trace, in order. -/
def traceDispatches : List HookEvent → List Json
  | [] => []
  | HookEvent.dispatch m :: es => m :: traceDispatches es
  | _ :: es => traceDispatches es

/-- A wire string that decodes to a `mounted` handshake packet. -/
def isMountedPacket (raw : String) : Bool :=
  match decodeMessage raw with
  | some (m, _) =>
    isPrivateMessage m &&
      (match jLookup "type" m with
       | some (Json.str t) => t = "mounted"
       | _ => false)
  | none => false

/-! ### Shared state (`useIframeSharedState`, lines 198-240) -/

/-- State `stateAge.current` together with the two `useState` values. -/
structure SharedStateStore where
  localTime : Int
  remoteTime : Int
  internalState : Json
  remoteState : Json
deriving Repr

/-- The SharedStateMessage object of line 231: type tag, state, time. -/
def setStateJson (v : Json) (t : Int) : Json :=
  Json.obj
    [("type", Json.str "__private_set-state"), ("state", v), ("time", Json.num t)]

/-- A local mutation: `setInternalState` followed by the effect on
`[internalState]` (lines 228-232) — read the wall clock `now`, store it
as `stateAge.current.local`, and dispatch the state stamped with it. -/
def localMutate (st : SharedStateStore) (v : Json) (now : Int) : SharedStateStore × Json :=
  ({ st with internalState := v, localTime := now }, setStateJson v now)

/-- The shared-state message handler (lines 215-224) on a `set-state`
message: store the peer's timestamp and value unconditionally. -/
def recvSetState (st : SharedStateStore) (v : Json) (t : Int) : SharedStateStore :=
  { st with remoteTime := t, remoteState := v }

/-- The value the hook returns on every render (lines 234-237). -/
def observedState (st : SharedStateStore) : Json :=
  if st.localTime > st.remoteTime then st.internalState else st.remoteState

/-! ### Trace lemmas -/

theorem runPosted_cons (st : HookState) (e : HookEvent) (es : List HookEvent) :
    runPosted st (e :: es) = (hookStep st e).2.1 ++ runPosted (hookStep st e).1 es := rfl

theorem runState_cons (st : HookState) (e : HookEvent) (es : List HookEvent) :
    runState st (e :: es) = runState (hookStep st e).1 es := rfl

theorem runDelivered_cons (st : HookState) (e : HookEvent) (es : List HookEvent) :
    runDelivered st (e :: es) =
      (hookStep st e).2.2 ++ runDelivered (hookStep st e).1 es := rfl

/-- The private-message handler only ever touches `childId`. -/
theorem handlePrivate_fields (st : HookState) (m : Json) :
    (handlePrivateMessage st m).queue = st.queue ∧
    (handlePrivateMessage st m).role = st.role ∧
    (handlePrivateMessage st m).iframeId = st.iframeId := by
  unfold handlePrivateMessage
  repeat' split
  all_goals simp

/-- A received event never posts and never touches the queue, the role
or the iframe id. -/
theorem recv_preserves (st : HookState) (raw : String) :
    (hookStep st (HookEvent.recv raw)).1.queue = st.queue ∧
    (hookStep st (HookEvent.recv raw)).1.role = st.role ∧
    (hookStep st (HookEvent.recv raw)).1.iframeId = st.iframeId ∧
    (hookStep st (HookEvent.recv raw)).2.1 = [] := by
  cases hdec : decodeMessage raw with
  | none => simp [hookStep, hdec]
  | some p =>
    obtain ⟨m, fid⟩ := p
    by_cases ht : truthy m = true
    · by_cases hpriv : isPrivateMessage m = true
      · have h := handlePrivate_fields st m
        simp [hookStep, hdec, ht, hpriv, h.1, h.2.1, h.2.2]
      · cases hrole : st.role with
        | parent =>
          by_cases hif : st.iframeId = fid <;> simp [hookStep, hdec, ht, hpriv, hrole, hif]
        | child => simp [hookStep, hdec, ht, hpriv, hrole]
        | neither => simp [hookStep, hdec, ht, hpriv, hrole]
    · simp [hookStep, hdec, ht]

/-- If a received wire string is not a `mounted` handshake packet, the
private-message handler leaves the state unchanged. -/
theorem handlePrivate_not_mounted (st : HookState) (m : Json) (fid : Option String)
    (raw : String) (hdec : decodeMessage raw = some (m, fid))
    (hpriv : isPrivateMessage m = true) (hm : isMountedPacket raw = false) :
    handlePrivateMessage st m = st := by
  unfold isMountedPacket at hm
  rw [hdec] at hm
  simp only [hpriv, Bool.true_and] at hm
  unfold handlePrivateMessage
  cases hjt : jLookup "type" m with
  | none => rfl
  | some j2 =>
    cases j2 with
    | str t =>
      rw [hjt] at hm
      simp only [decide_eq_false_iff_not] at hm
      simp [hm]
    | null => rfl
    | bool b => rfl
    | num i => rfl
    | arr xs => rfl
    | obj ps => rfl

/-- Gating invariant: a parent that has received no `mounted` packet
posts nothing and stays un-established, whatever else happens. -/
theorem pre_handshake_aux (es : List HookEvent) : ∀ st : HookState,
    st.role = Role.parent → st.childId = none →
    (∀ raw, HookEvent.recv raw ∈ es → isMountedPacket raw = false) →
    runPosted st es = [] ∧ (runState st es).childId = none := by
  induction es with
  | nil =>
    intro st h1 h2 h3
    exact ⟨rfl, h2⟩
  | cons e es ih =>
    intro st h1 h2 h3
    have h3t : ∀ raw, HookEvent.recv raw ∈ es → isMountedPacket raw = false :=
      fun raw hm => h3 raw (by simp [hm])
    cases e with
    | dispatch m =>
      rw [runPosted_cons, runState_cons,
        show (hookStep st (HookEvent.dispatch m)).2.1 = [] from rfl,
        show (hookStep st (HookEvent.dispatch m)).1 = { st with queue := st.queue ++ [m] }
          from rfl,
        List.nil_append]
      exact ih { st with queue := st.queue ++ [m] } h1 h2 h3t
    | drain =>
      have hstep : hookStep st HookEvent.drain = (st, [], []) := by
        obtain ⟨role, ifid, q, cid⟩ := st
        simp only at h1 h2
        subst h1
        subst h2
        cases q with
        | nil => rfl
        | cons m rest => simp [hookStep]
      rw [runPosted_cons, runState_cons, hstep]
      simpa using ih st h1 h2 h3t
    | recv raw =>
      have hm := h3 raw (by simp)
      cases hdec : decodeMessage raw with
      | none =>
        have hstep : hookStep st (HookEvent.recv raw) = (st, [], []) := by
          simp [hookStep, hdec]
        rw [runPosted_cons, runState_cons, hstep]
        simpa using ih st h1 h2 h3t
      | some p =>
        obtain ⟨m, fid⟩ := p
        by_cases ht : truthy m = true
        · by_cases hpriv : isPrivateMessage m = true
          · have heq := handlePrivate_not_mounted st m fid raw hdec hpriv hm
            have hstep : hookStep st (HookEvent.recv raw) = (st, [], []) := by
              simp [hookStep, hdec, ht, hpriv, heq]
            rw [runPosted_cons, runState_cons, hstep]
            simpa using ih st h1 h2 h3t
          · by_cases hif : st.iframeId = fid
            · have hstep : hookStep st (HookEvent.recv raw) = (st, [], [m]) := by
                simp [hookStep, hdec, ht, hpriv, h1, hif]
              rw [runPosted_cons, runState_cons, hstep]
              simpa using ih st h1 h2 h3t
            · have hstep : hookStep st (HookEvent.recv raw) = (st, [], []) := by
                simp [hookStep, hdec, ht, hpriv, h1, hif]
              rw [runPosted_cons, runState_cons, hstep]
              simpa using ih st h1 h2 h3t
        · have hstep : hookStep st (HookEvent.recv raw) = (st, [], []) := by
            simp [hookStep, hdec, ht]
          rw [runPosted_cons, runState_cons, hstep]
          simpa using ih st h1 h2 h3t
    | mount id =>
      have hstep : hookStep st (HookEvent.mount id) = (st, [], []) := by
        obtain ⟨role, ifid, q, cid⟩ := st
        simp only at h1
        subst h1
        rfl
      rw [runPosted_cons, runState_cons, hstep]
      simpa using ih st h1 h2 h3t

/-- FIFO invariant for a parent Link: what has been posted followed by
what is still queued is exactly what was queued and dispatched, in
order — nothing duplicated, dropped or reordered. -/
theorem queue_invariant_aux (es : List HookEvent) : ∀ st : HookState,
    st.role = Role.parent →
    runPosted st es ++ (runState st es).queue.map (fun m => encodeMessage m none) =
      (st.queue ++ traceDispatches es).map (fun m => encodeMessage m none) := by
  induction es with
  | nil =>
    intro st h1
    simp [runPosted, runState, runHook, traceDispatches]
  | cons e es ih =>
    intro st h1
    cases e with
    | dispatch m =>
      rw [runPosted_cons, runState_cons,
        show (hookStep st (HookEvent.dispatch m)).2.1 = [] from rfl,
        show (hookStep st (HookEvent.dispatch m)).1 = { st with queue := st.queue ++ [m] }
          from rfl,
        List.nil_append,
        show traceDispatches (HookEvent.dispatch m :: es) = m :: traceDispatches es from rfl,
        ih { st with queue := st.queue ++ [m] } h1]
      simp
    | drain =>
      obtain ⟨role, ifid, q, cid⟩ := st
      simp only at h1
      subst h1
      cases q with
      | nil =>
        rw [runPosted_cons, runState_cons,
          show hookStep ⟨Role.parent, ifid, [], cid⟩ HookEvent.drain =
            (⟨Role.parent, ifid, [], cid⟩, [], []) from rfl]
        simpa [show traceDispatches (HookEvent.drain :: es) = traceDispatches es from rfl]
          using ih ⟨Role.parent, ifid, [], cid⟩ rfl
      | cons m rest =>
        by_cases hc : (truthy m && cid.isSome) = true
        · have hstep : hookStep ⟨Role.parent, ifid, m :: rest, cid⟩ HookEvent.drain =
              (⟨Role.parent, ifid, rest, cid⟩, [encodeMessage m none], []) := by
            simp [hookStep, hc]
          rw [runPosted_cons, runState_cons, hstep,
            show traceDispatches (HookEvent.drain :: es) = traceDispatches es from rfl]
          have hr := ih ⟨Role.parent, ifid, rest, cid⟩ rfl
          rw [List.append_assoc]
          simp only at hr
          rw [hr]
          simp
        · have hstep : hookStep ⟨Role.parent, ifid, m :: rest, cid⟩ HookEvent.drain =
              (⟨Role.parent, ifid, m :: rest, cid⟩, [], []) := by
            simp [hookStep, hc]
          rw [runPosted_cons, runState_cons, hstep,
            show traceDispatches (HookEvent.drain :: es) = traceDispatches es from rfl]
          simpa using ih ⟨Role.parent, ifid, m :: rest, cid⟩ rfl
    | recv raw =>
      obtain ⟨hqq, hrr, hii, hpp⟩ := recv_preserves st raw
      rw [runPosted_cons, runState_cons, hpp, List.nil_append,
        show traceDispatches (HookEvent.recv raw :: es) = traceDispatches es from rfl]
      have hr := ih (hookStep st (HookEvent.recv raw)).1 (by rw [hrr, h1])
      rw [hr, hqq]
    | mount id =>
      have hstep : hookStep st (HookEvent.mount id) = (st, [], []) := by
        obtain ⟨role, ifid, q, cid⟩ := st
        simp only at h1
        subst h1
        rfl
      rw [runPosted_cons, runState_cons, hstep,
        show traceDispatches (HookEvent.mount id :: es) = traceDispatches es from rfl]
      simpa using ih st h1

/-! ### Claims -/

/-- C1.  Codec round-trip: for every JSON-serializable message `m` and
every optional sender identifier `s`, decoding the string produced by
encoding `(m, s)` yields exactly the pair `(m, s)`. -/
theorem codec_roundtrip (m : Json) (s : Option String) :
    decodeMessage (encodeMessage m s) = some (m, s) :=
  decode_encode m s

/-- C2.  Marker discrimination and decode totality: any input string
that is not a well-formed JSON wrapper carrying the marker key
`__fromUseIframeHook` with value exactly `true` — unparseable strings
included — decodes to absent.  `decodeMessage` is a total function, so
no error can be raised. -/
theorem decode_rejects_unmarked (s : String)
    (h : ∀ j, jParse s = some j → jLookup packetId j ≠ some (Json.bool true)) :
    decodeMessage s = none := by
  unfold decodeMessage
  cases hp : jParse s with
  | none => rfl
  | some decoded =>
    have hne := h decoded hp
    show (match jLookup packetId decoded with
          | some (Json.bool true) =>
            (match jLookup "payload" decoded with
             | some (Json.str p) =>
               (match jParse p with
                | some message => some (message, fromIdField decoded)
                | none => none)
             | _ => none)
          | _ => none) = none
    cases hq : jLookup packetId decoded with
    | none => rfl
    | some j2 =>
      cases j2 with
      | bool b =>
        cases b with
        | true => exact absurd hq hne
        | false => rfl
      | null => rfl
      | num i => rfl
      | str s2 => rfl
      | arr xs => rfl
      | obj ps => rfl

theorem decode_rejects_unmarked_witness :
    decodeMessage "hello" = none
    ∧ decodeMessage (jStringify (Json.obj [(packetId, Json.bool false)])) = none :=
  ⟨decode_rejects_unmarked "hello"
      (fun j hj => absurd ((show jParse "hello" = none from rfl) ▸ hj) (by simp)),
    decode_rejects_unmarked _ (fun j hj => by
      rw [jParse_jStringify] at hj
      have hje : j = Json.obj [(packetId, Json.bool false)] := (Option.some.inj hj).symm
      subst hje
      intro hq
      simp [jLookup, List.lookup] at hq)⟩

/-- C3.  Pre-handshake gating: a parent-side Link that has received no
`mounted` handshake packet (its `childId` still unset, i.e. Pending)
transmits nothing on the channel over any schedule of dispatches,
drain cycles, receipts and mount effects, no matter how many entries
are queued. -/
theorem pre_handshake_gating (st : HookState) (es : List HookEvent)
    (hrole : st.role = Role.parent) (hchild : st.childId = none)
    (hnomount : ∀ raw, HookEvent.recv raw ∈ es → isMountedPacket raw = false) :
    runPosted st es = [] :=
  (pre_handshake_aux es st hrole hchild hnomount).1

theorem pre_handshake_gating_witness :
    runPosted ⟨Role.parent, some "A", [Json.str "m1", Json.str "m2"], none⟩
      [HookEvent.drain, HookEvent.dispatch (Json.str "m3"), HookEvent.drain,
        HookEvent.drain] = [] :=
  pre_handshake_gating _ _ rfl rfl (by intro raw h; simp at h)

/-- C4 (amended).  Queue ordering for truthy messages: on a parent
Link, what has been transmitted followed by what is still queued is
exactly the queued-and-submitted sequence in submission order (none
duplicated, none dropped, re-entrant submissions lose nothing); and
once Established a drain cycle with a truthy head removes exactly that
head and transmits it.  (As literally stated the claim is false: the
drain effect tests the queue head for truthiness, so a falsy head —
`false`, `0`, `""`, `null` — is never removed and stalls the queue;
see the counterexample.) -/
theorem queue_fifo_amended (st : HookState) (es : List HookEvent)
    (hrole : st.role = Role.parent) :
    (runPosted st es ++ (runState st es).queue.map (fun m => encodeMessage m none) =
       (st.queue ++ traceDispatches es).map (fun m => encodeMessage m none))
    ∧ (∀ m rest, st.queue = m :: rest → truthy m = true → st.childId.isSome = true →
         hookStep st HookEvent.drain =
           ({ st with queue := rest }, [encodeMessage m none], [])) := by
  constructor
  · exact queue_invariant_aux es st hrole
  · intro m rest hq ht hc
    obtain ⟨role, ifid, q, cid⟩ := st
    simp only at hrole hq
    subst hrole
    subst hq
    simp [hookStep, ht, hc]

theorem queue_fifo_amended_witness :
    hookStep ⟨Role.parent, some "A", [Json.str "x", Json.str "y"], some "A"⟩
        HookEvent.drain =
      (⟨Role.parent, some "A", [Json.str "y"], some "A"⟩,
        [encodeMessage (Json.str "x") none], []) :=
  (queue_fifo_amended ⟨Role.parent, some "A", [Json.str "x", Json.str "y"], some "A"⟩
    [] rfl).2 (Json.str "x") [Json.str "y"] rfl rfl rfl

/-- C4 counterexample: an Established parent Link (`childId` set) with
the falsy message `0` at the head of its queue transmits nothing over
three drain cycles and never removes the head — refuting "transmits
them … none dropped, removing exactly one head entry per drain
cycle". -/
theorem queue_falsy_stall_counterexample :
    runPosted ⟨Role.parent, some "A", [Json.num 0], some "A"⟩
        [HookEvent.drain, HookEvent.drain, HookEvent.drain] = []
    ∧ (runState ⟨Role.parent, some "A", [Json.num 0], some "A"⟩
        [HookEvent.drain, HookEvent.drain, HookEvent.drain]).queue = [Json.num 0] := by
  exact ⟨rfl, rfl⟩

/-- C5 (amended).  Parent routing: for a decoded, non-private inbound
message on a parent Link, the caller's handler is invoked exactly when
the envelope's sender id equals the Link's `iframeId` AND the message
is truthy; in particular a message whose sender id differs from
`iframeId` is never delivered.  (As literally stated the claim is
false: a falsy application message from the matching sender is dropped
by the `if (message)` truthiness check; see the counterexample.) -/
theorem router_parent_delivery (st : HookState) (raw : String) (m : Json)
    (fid : Option String) (hrole : st.role = Role.parent)
    (hdec : decodeMessage raw = some (m, fid)) (hpriv : isPrivateMessage m = false) :
    ((hookStep st (HookEvent.recv raw)).2.2 = [m] ↔
      (st.iframeId = fid ∧ truthy m = true))
    ∧ (st.iframeId ≠ fid → (hookStep st (HookEvent.recv raw)).2.2 = []) := by
  constructor
  · by_cases ht : truthy m = true <;> by_cases hif : st.iframeId = fid <;>
      simp [hookStep, hdec, hpriv, hrole, ht, hif]
  · intro hif
    by_cases ht : truthy m = true <;> simp [hookStep, hdec, hpriv, hrole, ht, hif]

theorem router_parent_delivery_witness :
    (hookStep ⟨Role.parent, some "A", [], some "A"⟩
      (HookEvent.recv (encodeMessage (Json.str "hi") (some "A")))).2.2 =
      [Json.str "hi"] :=
  (router_parent_delivery ⟨Role.parent, some "A", [], some "A"⟩ _ (Json.str "hi")
    (some "A") rfl (decode_encode (Json.str "hi") (some "A")) rfl).1.mpr ⟨rfl, rfl⟩

/-- C5 counterexample: the wire string for the falsy application
message `0` with sender id `"A"` decodes successfully, is not private,
and its sender id equals the Link's `iframeId` `"A"`, yet the parent's
event listener invokes no handler — refuting "invoked if and only if
the senderLinkId equals the Link's expectedId". -/
theorem router_matching_falsy_counterexample :
    decodeMessage (encodeMessage (Json.num 0) (some "A")) = some (Json.num 0, some "A")
    ∧ isPrivateMessage (Json.num 0) = false
    ∧ (hookStep ⟨Role.parent, some "A", [], some "A"⟩
        (HookEvent.recv (encodeMessage (Json.num 0) (some "A")))).2.2 = [] := by
  refine ⟨decode_encode (Json.num 0) (some "A"), rfl, ?_⟩
  simp [hookStep, decode_encode (Json.num 0) (some "A"), truthy]

/-- C6.  Handshake establishment: `handlePrivateMessage` on a
`mounted` PrivateMessage establishes a Pending parent Link (sets
`childId`) exactly when the message's `id` equals the Link's
`iframeId`; a `mounted` message with any other id leaves the whole
state unchanged. -/
theorem handshake_establish (st : HookState) (id : String) :
    (st.childId = none →
       (((handlePrivateMessage st (mountedJson id)).childId ≠ none) ↔
         st.iframeId = some id))
    ∧ (st.iframeId ≠ some id → handlePrivateMessage st (mountedJson id) = st) := by
  have hty : jLookup "type" (mountedJson id) = some (Json.str "mounted") := rfl
  have hid : jLookup "id" (mountedJson id) = some (Json.str id) := rfl
  constructor
  · intro hch
    cases hif : st.iframeId with
    | none => simp [handlePrivateMessage, hty, hid, hif, hch]
    | some t2 =>
      by_cases he : id = t2
      · subst he
        simp [handlePrivateMessage, hty, hid, hif]
      · simp [handlePrivateMessage, hty, hid, hif, he, hch, Ne.symm he]
  · intro hne
    cases hif : st.iframeId with
    | none => simp [handlePrivateMessage, hty, hid, hif]
    | some t2 =>
      have he : ¬ id = t2 := fun h => hne (by rw [hif, h])
      simp [handlePrivateMessage, hty, hid, hif, he]

theorem handshake_establish_witness :
    ((handlePrivateMessage ⟨Role.parent, some "A", [], none⟩
      (mountedJson "A")).childId ≠ none)
    ∧ handlePrivateMessage ⟨Role.parent, some "A", [], none⟩ (mountedJson "B") =
        ⟨Role.parent, some "A", [], none⟩ :=
  ⟨((handshake_establish ⟨Role.parent, some "A", [], none⟩ "A").1 rfl).mpr rfl,
    (handshake_establish ⟨Role.parent, some "A", [], none⟩ "B").2 (by simp)⟩

/-- C7.  Last-write-wins display rule: the observed value is
`internalState` when `localTime > remoteTime` and `remoteState`
otherwise; concretely, after a local mutation stamped 10 a remote
update stamped 5 leaves the local value observed, and a further remote
update stamped 15 makes the remote value observed. -/
theorem lww_display (st : SharedStateStore) (v w w2 : Json) :
    observedState (recvSetState (localMutate st v 10).1 w 5) = v
    ∧ observedState (recvSetState (recvSetState (localMutate st v 10).1 w 5) w2 15) = w2
    ∧ (∀ s : SharedStateStore, observedState s =
         if s.localTime > s.remoteTime then s.internalState else s.remoteState) := by
  refine ⟨?_, ?_, fun s => rfl⟩
  · simp [observedState, recvSetState, localMutate]
  · norm_num [observedState, recvSetState, localMutate]

/-- C8 (amended).  A local mutation stores the wall-clock reading
`now` as the new `localTime`; the new timestamp strictly exceeds the
previous one exactly when the clock reading does.  (As literally
stated the claim is false: the code assigns `new Date().getTime()`
with no strict-increase enforcement, so two mutations in the same
millisecond — or a clock step backwards — violate strictness; see the
counterexample.) -/
theorem local_timestamp_from_clock (st : SharedStateStore) (v : Json) (now : Int) :
    (localMutate st v now).1.localTime = now
    ∧ (now > st.localTime → (localMutate st v now).1.localTime > st.localTime) := by
  constructor
  · rfl
  · intro h
    simpa [localMutate] using h

theorem local_timestamp_from_clock_witness :
    (localMutate ⟨5, 0, Json.null, Json.null⟩ Json.null 7).1.localTime > 5 :=
  (local_timestamp_from_clock ⟨5, 0, Json.null, Json.null⟩ Json.null 7).2 (by norm_num)

/-- C8 counterexample: a store whose `localTime` is 5 mutated while
the wall clock still reads 5 (same millisecond) gets `localTime = 5`
again — not strictly greater than the previous local timestamp. -/
theorem local_timestamp_counterexample :
    ¬ ((localMutate ⟨5, 0, Json.null, Json.null⟩ Json.null 5).1.localTime > 5) := by
  decide

/-- C9.  Child handshake announcement: the child's mount effect
appends the `mounted` PrivateMessage to its outbound queue and marks
its own Link Established (`childId` set) in the same step; and the
child-side drain is ungated — it transmits any truthy queue head
whatever the handshake state, so handshake traffic never waits on the
queue's gate (the gate exists only on the parent branch). -/
theorem child_mount_announce (st : HookState) (id : String)
    (hrole : st.role = Role.child) :
    ((hookStep st (HookEvent.mount id)).1.childId = some id)
    ∧ ((hookStep st (HookEvent.mount id)).1.queue = st.queue ++ [mountedJson id])
    ∧ (∀ s : HookState, s.role = Role.child → ∀ m rest, s.queue = m :: rest →
         truthy m = true →
         hookStep s HookEvent.drain =
           ({ s with queue := rest }, [encodeMessage m s.childId], [])) := by
  obtain ⟨role, ifid, q, cid⟩ := st
  simp only at hrole
  subst hrole
  refine ⟨rfl, rfl, ?_⟩
  intro s hs m rest hq ht
  obtain ⟨role2, ifid2, q2, cid2⟩ := s
  simp only at hs hq
  subst hs
  subst hq
  simp [hookStep, ht]

theorem child_mount_announce_witness :
    ((hookStep ⟨Role.child, none, [], none⟩ (HookEvent.mount "frame-1")).1.childId =
      some "frame-1")
    ∧ hookStep ⟨Role.child, none, [mountedJson "frame-1"], some "frame-1"⟩
        HookEvent.drain =
      (⟨Role.child, none, [], some "frame-1"⟩,
        [encodeMessage (mountedJson "frame-1") (some "frame-1")], []) :=
  ⟨(child_mount_announce ⟨Role.child, none, [], none⟩ "frame-1" rfl).1,
    (child_mount_announce ⟨Role.child, none, [], none⟩ "frame-1" rfl).2.2
      ⟨Role.child, none, [mountedJson "frame-1"], some "frame-1"⟩ rfl
      (mountedJson "frame-1") [] rfl rfl⟩

/-- C10.  Falsy inbound messages are dropped at the routing step: any
wire string whose decoded inner message is a falsy JSON value
(`false`, `0`, `""`, `null`) leaves the state unchanged and invokes no
handler — even though the codec decodes (and round-trips) it
successfully. -/
theorem falsy_message_dropped (st : HookState) (raw : String) (m : Json)
    (fid : Option String) (hdec : decodeMessage raw = some (m, fid))
    (hf : truthy m = false) :
    hookStep st (HookEvent.recv raw) = (st, [], []) := by
  simp [hookStep, hdec, hf]

theorem falsy_message_dropped_witness :
    hookStep ⟨Role.parent, some "A", [], some "A"⟩
        (HookEvent.recv (encodeMessage (Json.num 0) (some "A"))) =
      (⟨Role.parent, some "A", [], some "A"⟩, [], []) :=
  falsy_message_dropped ⟨Role.parent, some "A", [], some "A"⟩ _ (Json.num 0)
    (some "A") (decode_encode (Json.num 0) (some "A")) rfl
